import Mathlib

/-!
Shallow embedding of the native PDF extractor of mcomix
(files `mcomix/archive/native_pdf/child.py`, `manager.py`, `parent.py`).

Filenames and path fragments are modelled as `List Char`.  The external
PDF library (PyMuPDF, imported as `fitz`) is modelled by the `Doc` and
`PageData` structures, which carry exactly the observations the code
makes of a document: per page the embedded-image xref list
(`page.get_images` and `doc.get_page_images`), the text length
(`len(page.get_text)`), the integer-rectangle areas of the placed-image
info and of the mediabox, the declared rotation, and the outcome of
probing the raw image stream with `fitz.image_profile`; per document an
association table for `doc.extract_image`.  Exact rational arithmetic
stands for the area computation.  Fallible operations return `Option`
(`none` models a raised Python exception), and filesystem writes are
reified as `FsEffect` values.
-/

namespace NativePdf

/-- Python substring prefix test, as used by `str.startswith`. -/
def listPrefixOf : List Char → List Char → Bool
  | [], _ => true
  | _ :: _, [] => false
  | a :: as, b :: bs => a == b && listPrefixOf as bs

/-- Python `needle in haystack` substring containment test. -/
def listContainsSub (d : List Char) : List Char → Bool
  | [] => d.isEmpty
  | c :: rest => listPrefixOf d (c :: rest) || listContainsSub d rest

/-- Delimiter between the page part and the xref part of a file name
(child.py line 16, `XREF_DELIMITER`, the characters of `_mcmxref`). -/
def XREF_DELIMITER : List Char := ['_', 'm', 'c', 'm', 'x', 'r', 'e', 'f']

/-- One step of Python `str.split` on `XREF_DELIMITER`: `acc` holds the
(reversed) characters of the current fragment.  The `fuel` argument only
makes the recursion structural; any fuel at least the length of the
remaining input gives the splitting of that input. -/
def splitOnDelimCore : Nat → List Char → List Char → List (List Char)
  | _, acc, [] => [acc.reverse]
  | 0, acc, s => [acc.reverse ++ s]
  | fuel + 1, acc, c :: rest =>
    if listPrefixOf XREF_DELIMITER (c :: rest) then
      acc.reverse :: splitOnDelimCore fuel [] (List.drop XREF_DELIMITER.length (c :: rest))
    else
      splitOnDelimCore fuel (c :: acc) rest

/-- Python `filename.split(XREF_DELIMITER)` (child.py line 192). -/
def splitOnDelim (s : List Char) : List (List Char) := splitOnDelimCore s.length [] s

/-- Decimal digit characters of a natural number, most significant
first; `fuel` only makes the recursion structural and any fuel `f` with
the number below `10 ^ f` gives the digits. -/
def natDigitsCore : Nat → Nat → List Char
  | 0, _ => []
  | fuel + 1, n =>
    if n < 10 then [Nat.digitChar n]
    else natDigitsCore fuel (n / 10) ++ [Nat.digitChar (n % 10)]

/-- Decimal digit characters of a natural number, most significant first. -/
def natDigits (n : Nat) : List Char := natDigitsCore (n + 1) n

/-- Python format of a natural number with format spec `04`:
zero-padded to a minimum width of four. -/
def fmt04 (n : Nat) : List Char :=
  List.replicate (4 - (natDigits n).length) '0' ++ natDigits n

/-- Python format of an integer with format spec `04`: the sign counts
towards the four-character minimum width. -/
def fmtInt04 (x : Int) : List Char :=
  if x < 0 then
    '-' :: (List.replicate (3 - (natDigits x.natAbs).length) '0' ++ natDigits x.natAbs)
  else fmt04 x.toNat

/-- Numeric value of a decimal digit character, if it is one. -/
def digitVal (c : Char) : Option Nat :=
  if '0' ≤ c ∧ c ≤ '9' then some (c.toNat - '0'.toNat) else none

/-- One step of parsing a decimal numeral left to right. -/
def parseStep (acc : Option Nat) (c : Char) : Option Nat :=
  match acc, digitVal c with
  | some a, some v => some (a * 10 + v)
  | _, _ => none

/-- Parse a nonempty all-digit string as a natural number. -/
def parseDigits (cs : List Char) : Option Nat :=
  if cs = [] then none else cs.foldl parseStep (some 0)

/-- Python `int(s)` on a string: optional sign followed by digits;
`none` models a raised `ValueError`. -/
def pyInt (cs : List Char) : Option Int :=
  match cs with
  | [] => none
  | c :: rest =>
    if c = '-' then (parseDigits rest).map (fun n => -(n : Int))
    else if c = '+' then (parseDigits rest).map (fun n => ((n : Nat) : Int))
    else (parseDigits (c :: rest)).map (fun n => ((n : Nat) : Int))

/-- Python `s[-4:]`. -/
def last4 (s : List Char) : List Char := s.drop (s.length - 4)

/-- Python `s[:4]`. -/
def take4 (s : List Char) : List Char := s.take 4

/-- Python `s[4:8]`. -/
def slice4to8 (s : List Char) : List Char := (s.drop 4).take 4

/-- Outcome of probing the raw stream of an embedded image with
`fitz.image_profile` inside `_check_image_type`: the probe can raise
(`err`, caught as `AttributeError` or `TypeError`), return an empty
profile for an exotic encoding (`noProfile`), or return a profile that
may or may not carry an `ext` entry. -/
inductive ProbeOutcome
  | err : ProbeOutcome
  | noProfile : ProbeOutcome
  | profile : Option (List Char) → ProbeOutcome
deriving DecidableEq

/-- The observations the worker makes of one page of a document. -/
structure PageData where
  /-- Xrefs of the embedded images of the page, as listed by both
  `page.get_images` and `doc.get_page_images`. -/
  images : List Nat
  /-- Length of the text content, `len(page.get_text())`. -/
  textLen : Nat
  /-- Integer-rectangle bbox area of each entry of `page.get_image_info()`
  (the code takes `.irect` of the bbox, so areas are integers). -/
  imageInfoAreas : List ℤ
  /-- Integer-rectangle area of `page.mediabox.irect`. -/
  pageArea : ℤ
  /-- Declared page rotation, `page.rotation`. -/
  rotation : Nat
  /-- Outcome of the image-type probe on this page. -/
  probe : ProbeOutcome
deriving DecidableEq

/-- Result of `doc.extract_image(xref)` when the dict is truthy; the
`image` key may in principle be absent (`img.get` with default). -/
structure ImageObj where
  image : Option (List Nat)
deriving DecidableEq

/-- A document: its pages in order, and the embedded-object table
consulted by `doc.extract_image`. -/
structure Doc where
  pages : List PageData
  objects : List (Int × ImageObj)
deriving DecidableEq

def Doc.page_count (d : Doc) : Nat := d.pages.length

/-- Embedding of `doc.extract_image(xref)`: `none` models a falsy (empty) result. -/
def Doc.extract_image (d : Doc) (xref : Int) : Option ImageObj :=
  (d.objects.find? (fun kv => kv.1 == xref)).map (fun kv => kv.2)

/-- Python page indexing `doc[i]`, which admits negative indices counting
from the end; `none` models the raised error for an out-of-range index. -/
def Doc.getPage (d : Doc) (i : Int) : Option PageData :=
  let j := if i < 0 then i + d.pages.length else i
  if 0 ≤ j ∧ j < d.pages.length then d.pages[j.toNat]? else none

/-- The mutable state of a `FitzWorker` relevant to classification:
the cached extension and the document-wide complex flag. -/
structure Worker where
  _extension : Option (List Char)
  _complex_doc : Bool
deriving DecidableEq

/-- Worker state right after `FitzWorker.__init__`. -/
def Worker.init : Worker := ⟨none, false⟩

/-- Embedding of `FitzWorker._must_render_page` (child.py lines 45-62): returns the
test outcome and the updated worker state (the complex flag is set
exactly when the test fires). -/
def _must_render_page (w : Worker) (p : PageData) : Bool × Worker :=
  if p.images.length ≠ 1 ∨ 0 < p.textLen then
    (true, { w with _complex_doc := true })
  else
    (false, w)

/-- Embedding of `FitzWorker._can_extract_image` (child.py lines 64-97).  The source
tests `area_diff < 0.05 * page_area` on the integer rectangle areas;
since 0.05 is exactly 1/20, this is the integer comparison
`20 * area_diff < page_area` (the claim C3 theorem relates this to the
literal 0.05 formulation over the rationals). -/
def _can_extract_image (p : PageData) : Bool :=
  if p.imageInfoAreas.length ≠ 1 then false
  else
    let img_area := p.imageInfoAreas.headI
    let area_diff := |p.pageArea - img_area|
    decide (20 * area_diff < p.pageArea)

/-- Embedding of `FitzWorker._extract_as_image` (child.py lines 37-43). -/
def _extract_as_image (w : Worker) (p : PageData) : Bool × Worker :=
  if w._complex_doc then (false, w)
  else
    let r := _must_render_page w p
    if !r.1 && _can_extract_image p then (true, r.2) else (false, r.2)

def pngStr : List Char := ['p', 'n', 'g']

/-- Embedding of `FitzWorker._check_image_type` (child.py lines 99-130): the probe
never propagates an exception (the final `return` swallows it) and
falls back to `png`. -/
def _check_image_type (p : PageData) : List Char :=
  match p.probe with
  | ProbeOutcome.err => pngStr
  | ProbeOutcome.noProfile => pngStr
  | ProbeOutcome.profile e => e.getD pngStr

/-- Embedding of `FitzWorker._image_extension` (child.py lines 31-35): probe once,
then reuse the cached extension. -/
def _image_extension (w : Worker) (p : PageData) : (List Char) × Worker :=
  match w._extension with
  | some e => (e, w)
  | none => (_check_image_type p, { w with _extension := some (_check_image_type p) })

/-- Embedding of `FitzWorker._get_image_xref` (child.py lines 132-140): the first
xref of `doc.get_page_images`, or `-1` when there is none. -/
def _get_image_xref (p : PageData) : Int :=
  match p.images with
  | [] => -1
  | x :: _ => (x : Int)

def pageStr : List Char := ['p', 'a', 'g', 'e']

/-- The rendered-form filename built by `iter_contents`. -/
def renderedName (n : Nat) : List Char := pageStr ++ fmt04 n ++ '.' :: pngStr

/-- The extracted-form filename built by `iter_contents`. -/
def extractName (n : Nat) (xref : Int) (ext : List Char) : List Char :=
  pageStr ++ fmt04 n ++ XREF_DELIMITER ++ fmtInt04 xref ++ '.' :: ext

/-- Body of the loop of `FitzWorker.iter_contents` (child.py lines
142-151), threading the worker state; `pg` is the zero-based index of
the first page of the remaining list. -/
def iter_contents_from (w : Worker) (pg : Nat) : List PageData → List (List Char)
  | [] => []
  | p :: rest =>
    let r := _extract_as_image w p
    if r.1 then
      let er := _image_extension r.2 p
      extractName (pg + 1) (_get_image_xref p) er.1 :: iter_contents_from er.2 (pg + 1) rest
    else
      renderedName (pg + 1) :: iter_contents_from r.2 (pg + 1) rest

/-- Embedding of `FitzWorker.iter_contents` on a freshly opened document. -/
def iter_contents (d : Doc) : List (List Char) :=
  iter_contents_from Worker.init 0 d.pages

/-- Embedding of `PDF_RENDER_DPI_DEF` (constants.py line 112). -/
def PDF_RENDER_DPI_DEF : Nat := 72 * 4

/-- The PIL transpose operations used for rotation compensation. -/
inductive Transpose
  | rotate90 : Transpose
  | rotate180 : Transpose
  | rotate270 : Transpose
deriving DecidableEq

/-- Content of a written output file: raw bytes written verbatim, bytes
decoded and transposed and re-encoded by PIL, or a page pixmap rendered
at a given dpi and saved as PNG. -/
inductive FileContent
  | raw : List Nat → FileContent
  | transposedOf : Transpose → List Nat → FileContent
  | pixmapPNG : Nat → FileContent
deriving DecidableEq

/-- Filesystem effect of one worker operation: directories created and
the file written, if any. -/
structure FsEffect where
  madeDirs : List (List Char)
  written : Option ((List Char) × FileContent)
deriving DecidableEq

/-- No directory made, no file written. -/
def noEffect : FsEffect := ⟨[], none⟩

/-- Python `os.path.dirname`: drop the last path component. -/
def dirname (p : List Char) : List Char :=
  ((p.reverse.dropWhile (fun c => c ≠ '/')).drop 1).reverse

/-- Python `os.path.join`. -/
def pathJoin (a b : List Char) : List Char := a ++ '/' :: b

/-- Embedding of `FitzWorker.extract_xref` (child.py lines 153-179): returns the
filesystem effect, `none` modelling a raised exception (here: a bad page
index).  A miss of `doc.extract_image` returns before any directory is
made or file written. -/
def extract_xref (d : Doc) (auto_rotate : Bool) (page : Int) (xref : Int)
    (path : List Char) : Option FsEffect :=
  match d.extract_image xref with
  | none => some noEffect
  | some img =>
    let img_bytes := img.image.getD []
    match d.getPage page with
    | none => none
    | some p =>
      let rotation := p.rotation
      if (rotation = 90 ∨ rotation = 180 ∨ rotation = 270) ∧ auto_rotate then
        let transpose :=
          if rotation = 180 then Transpose.rotate180
          else if rotation = 270 then Transpose.rotate90
          else Transpose.rotate270
        some ⟨[dirname path], some (path, FileContent.transposedOf transpose img_bytes)⟩
      else
        some ⟨[dirname path], some (path, FileContent.raw img_bytes)⟩

/-- Embedding of `FitzWorker.render_page` (child.py lines 181-187). -/
def render_page (d : Doc) (pg : Int) (path : List Char) : Option FsEffect :=
  match d.getPage pg with
  | none => none
  | some _ => some ⟨[], some (path, FileContent.pixmapPNG PDF_RENDER_DPI_DEF)⟩

/-- The dispatch decision of `FitzWorker.extract_file` (child.py lines
189-198), factored out of the filename: an xref extraction request, a
render request, a silent fall-through, or a raised parse error. -/
inductive FileRequest
  | xrefReq : Int → Int → FileRequest
  | renderReq : Int → FileRequest
  | nothing : FileRequest
  | badName : FileRequest
deriving DecidableEq

/-- Filename decoding exactly as `FitzWorker.extract_file` performs it:
split on the delimiter when present (two fragments expected), read the
page from the last four characters before the delimiter and the xref
from the first four after it; otherwise fall back on the `page` prefix
test; `badName` models a raised `ValueError`. -/
def parse_file_request (filename : List Char) : FileRequest :=
  if listContainsSub XREF_DELIMITER filename then
    match splitOnDelim filename with
    | [pginfo, ref] =>
      match pyInt (last4 pginfo), pyInt (take4 ref) with
      | some p, some x => FileRequest.xrefReq (p - 1) x
      | _, _ => FileRequest.badName
    | _ => FileRequest.badName
  else if listPrefixOf pageStr filename then
    match pyInt (slice4to8 filename) with
    | some p => FileRequest.renderReq (p - 1)
    | none => FileRequest.badName
  else FileRequest.nothing

/-- Embedding of `FitzWorker.extract_file` (child.py lines 189-198). -/
def extract_file (d : Doc) (auto_rotate : Bool) (filename : List Char)
    (dest : List Char) : Option FsEffect :=
  let outpath := pathJoin dest filename
  match parse_file_request filename with
  | FileRequest.xrefReq p x => extract_xref d auto_rotate p x outpath
  | FileRequest.renderReq p => render_page d p outpath
  | FileRequest.nothing => some noEffect
  | FileRequest.badName => none

/-- Events of the `WorkerProxy._extract_pages` generator (manager.py
lines 49-54): for each entry the extraction is attempted, then the entry
is yielded; a raised exception ends the stream. -/
inductive PagesEvent
  | attempted : List Char → FsEffect → PagesEvent
  | yielded : List Char → PagesEvent
  | raised : List Char → PagesEvent
deriving DecidableEq

/-- Trace of `WorkerProxy._extract_pages` over a list of entries. -/
def extract_pages_trace (d : Doc) (auto_rotate : Bool) (save_path : List Char) :
    List (List Char) → List PagesEvent
  | [] => []
  | e :: rest =>
    match extract_file d auto_rotate e save_path with
    | none => [PagesEvent.raised e]
    | some eff =>
      PagesEvent.attempted e eff :: PagesEvent.yielded e ::
        extract_pages_trace d auto_rotate save_path rest

/-- The filenames yielded by a trace, in order. -/
def yieldsOf (tr : List PagesEvent) : List (List Char) :=
  tr.filterMap (fun ev =>
    match ev with
    | PagesEvent.yielded f => some f
    | _ => none)

/-- Whether a trace ends in a raised exception. -/
def raisedIn (tr : List PagesEvent) : Bool :=
  tr.any (fun ev =>
    match ev with
    | PagesEvent.raised _ => true
    | _ => false)

/-- Embedding of `FitzArchive.extract` (parent.py lines 52-58): materialize the
stream for the single filename and report whether it has any element;
`none` models the exception propagating out of `list(...)`. -/
def FitzArchive_extract (d : Doc) (auto_rotate : Bool)
    (filename dest_dir : List Char) : Option Bool :=
  let tr := extract_pages_trace d auto_rotate dest_dir [filename]
  if raisedIn tr then none
  else some (decide (0 < (yieldsOf tr).length))

/-- Page classification derived by the worker. -/
inductive Classification
  | mustRender : Classification
  | extractableImage : Classification
deriving DecidableEq, BEq

/-- Modelled from the claim C3 wording: classify MustRender if the
embedded-image count is not exactly 1 or the text content is non-empty,
else MustRender if the placed-image count is not exactly 1, else
ExtractableImage exactly when the absolute difference of page area and
image area is below 0.05 times the page area. -/
def classification_spec (p : PageData) : Classification :=
  if p.images.length ≠ 1 ∨ 0 < p.textLen then Classification.mustRender
  else if p.imageInfoAreas.length ≠ 1 then Classification.mustRender
  else if |(p.pageArea : ℚ) - (p.imageInfoAreas.headI : ℚ)| < 0.05 * (p.pageArea : ℚ) then
    Classification.extractableImage
  else Classification.mustRender

/-- Modelled from the claim C3 wording: the complex flag is set exactly
when the first (must-render) test fires. -/
def complex_flag_spec (p : PageData) : Bool :=
  decide (p.images.length ≠ 1 ∨ 0 < p.textLen)

/-! ## Helper lemmas: substring containment and splitting -/

theorem listPrefixOf_delim_cons (c : Char) (l : List Char) (h : c ≠ '_') :
    listPrefixOf XREF_DELIMITER (c :: l) = false := by
  have hb : ('_' == c) = false := by
    simp only [beq_eq_false_iff_ne, ne_eq]
    exact fun hc => h hc.symm
  simp [XREF_DELIMITER, listPrefixOf, hb]

theorem listPrefixOf_self_append (l b : List Char) :
    listPrefixOf l (l ++ b) = true := by
  induction l with
  | nil => simp [listPrefixOf]
  | cons c t ih => simp [listPrefixOf, ih]

theorem listContainsSub_delim_append (a b : List Char) :
    listContainsSub XREF_DELIMITER (a ++ (XREF_DELIMITER ++ b)) = true := by
  induction a with
  | nil =>
    have h1 : listPrefixOf XREF_DELIMITER (XREF_DELIMITER ++ b) = true :=
      listPrefixOf_self_append _ _
    show (listPrefixOf XREF_DELIMITER (XREF_DELIMITER ++ b) ||
      listContainsSub XREF_DELIMITER (['m', 'c', 'm', 'x', 'r', 'e', 'f'] ++ b)) = true
    rw [h1]
    simp
  | cons c t ih =>
    show listContainsSub XREF_DELIMITER (c :: (t ++ (XREF_DELIMITER ++ b))) = true
    simp [listContainsSub, ih]

theorem listContainsSub_of_no_underscore (s : List Char)
    (h : ∀ c ∈ s, c ≠ '_') :
    listContainsSub XREF_DELIMITER s = false := by
  induction s with
  | nil => simp [listContainsSub, XREF_DELIMITER]
  | cons c t ih =>
    have hc : c ≠ '_' := h c (by simp)
    have ht : ∀ x ∈ t, x ≠ '_' := fun x hx => h x (by simp [hx])
    simp [listContainsSub, listPrefixOf_delim_cons c t hc, ih ht]

theorem splitOnDelimCore_nil (fuel : Nat) (acc : List Char) :
    splitOnDelimCore fuel acc [] = [acc.reverse] := by
  cases fuel <;> rfl

theorem splitOnDelimCore_skip (a : List Char) (h : ∀ c ∈ a, c ≠ '_') :
    ∀ (fuel : Nat) (acc rest : List Char),
      splitOnDelimCore (a.length + fuel) acc (a ++ rest)
        = splitOnDelimCore fuel (a.reverse ++ acc) rest := by
  induction a with
  | nil => intro fuel acc rest; simp
  | cons c t ih =>
    intro fuel acc rest
    have hc : c ≠ '_' := h c (by simp)
    have ht : ∀ x ∈ t, x ≠ '_' := fun x hx => h x (by simp [hx])
    have harith : (c :: t).length + fuel = (t.length + fuel) + 1 := by
      simp only [List.length_cons]; omega
    rw [harith]
    show splitOnDelimCore ((t.length + fuel) + 1) acc (c :: (t ++ rest)) = _
    rw [splitOnDelimCore, if_neg (by simp [listPrefixOf_delim_cons c _ hc])]
    rw [ih ht fuel (c :: acc) rest]
    congr 1
    simp

theorem splitOnDelimCore_delim (fuel : Nat) (acc b : List Char) :
    splitOnDelimCore (fuel + 1) acc (XREF_DELIMITER ++ b)
      = acc.reverse :: splitOnDelimCore fuel [] b := by
  show splitOnDelimCore (fuel + 1) acc ('_' :: (['m', 'c', 'm', 'x', 'r', 'e', 'f'] ++ b)) = _
  rw [splitOnDelimCore]
  rw [if_pos (by
    show listPrefixOf XREF_DELIMITER (XREF_DELIMITER ++ b) = true
    exact listPrefixOf_self_append _ _)]
  rfl

theorem splitOnDelimCore_no_underscore (s : List Char) (h : ∀ c ∈ s, c ≠ '_') :
    ∀ (fuel : Nat) (acc : List Char), s.length ≤ fuel →
      splitOnDelimCore fuel acc s = [acc.reverse ++ s] := by
  induction s with
  | nil => intro fuel acc _; rw [splitOnDelimCore_nil]; simp
  | cons c t ih =>
    intro fuel acc hfuel
    have hc : c ≠ '_' := h c (by simp)
    have ht : ∀ x ∈ t, x ≠ '_' := fun x hx => h x (by simp [hx])
    cases fuel with
    | zero => simp at hfuel
    | succ g =>
      rw [splitOnDelimCore, if_neg (by simp [listPrefixOf_delim_cons c _ hc])]
      rw [ih ht g (c :: acc) (by simpa using hfuel)]
      simp

theorem splitOnDelim_pair (a b : List Char)
    (ha : ∀ c ∈ a, c ≠ '_') (hb : ∀ c ∈ b, c ≠ '_') :
    splitOnDelim (a ++ (XREF_DELIMITER ++ b)) = [a, b] := by
  unfold splitOnDelim
  have hlen : (a ++ (XREF_DELIMITER ++ b)).length = a.length + ((b.length + 7) + 1) := by
    simp [XREF_DELIMITER]
    try omega
  rw [hlen, splitOnDelimCore_skip a ha ((b.length + 7) + 1) [] (XREF_DELIMITER ++ b)]
  rw [splitOnDelimCore_delim]
  rw [splitOnDelimCore_no_underscore b hb (b.length + 7) [] (by omega)]
  simp

/-! ## Helper lemmas: decimal numerals -/

theorem digitChar_digit (m : Nat) (h : m < 10) :
    '0' ≤ Nat.digitChar m ∧ Nat.digitChar m ≤ '9' := by
  interval_cases m <;> decide

theorem digitVal_digitChar (m : Nat) (h : m < 10) :
    digitVal (Nat.digitChar m) = some m := by
  interval_cases m <;> decide

theorem natDigitsCore_mem_digit :
    ∀ f n, n < 10 ^ f → ∀ c ∈ natDigitsCore f n, '0' ≤ c ∧ c ≤ '9' := by
  intro f
  induction f with
  | zero => intro n h c hc; simp [natDigitsCore] at hc
  | succ f ih =>
    intro n h c hc
    rw [natDigitsCore] at hc
    split at hc
    · rename_i h10
      rw [List.mem_singleton] at hc
      subst hc
      exact digitChar_digit n h10
    · rename_i h10
      rw [List.mem_append, List.mem_singleton] at hc
      rcases hc with hc | hc
      · refine ih (n / 10) ?_ c hc
        rw [Nat.div_lt_iff_lt_mul (by omega : 0 < 10)]
        rw [pow_succ] at h
        exact h
      · subst hc
        exact digitChar_digit (n % 10) (Nat.mod_lt _ (by omega))

theorem natDigitsCore_length_le :
    ∀ f n, n < 10 ^ f → (natDigitsCore f n).length ≤ f := by
  intro f
  induction f with
  | zero => intro n h; simp [natDigitsCore]
  | succ f ih =>
    intro n h
    rw [natDigitsCore]
    split
    · simp
    · rename_i h10
      rw [List.length_append, List.length_cons, List.length_nil]
      have := ih (n / 10) (by
        rw [Nat.div_lt_iff_lt_mul (by omega : 0 < 10)]
        rw [pow_succ] at h
        exact h)
      omega

theorem natDigitsCore_ne_nil (f n : Nat) : natDigitsCore (f + 1) n ≠ [] := by
  rw [natDigitsCore]
  split <;> simp

theorem natDigitsCore_congr :
    ∀ f1 f2 n, 0 < f1 → 0 < f2 → n < 10 ^ f1 → n < 10 ^ f2 →
      natDigitsCore f1 n = natDigitsCore f2 n := by
  intro f1
  induction f1 with
  | zero => intro f2 n h1; omega
  | succ f1 ih =>
    intro f2 n _ h2 hb1 hb2
    cases f2 with
    | zero => omega
    | succ f2 =>
      rw [natDigitsCore, natDigitsCore]
      by_cases h10 : n < 10
      · rw [if_pos h10, if_pos h10]
      · rw [if_neg h10, if_neg h10]
        have hf1 : 0 < f1 := by
          rcases Nat.eq_zero_or_pos f1 with hz | hp
          · subst hz; rw [pow_one] at hb1; omega
          · exact hp
        have hf2 : 0 < f2 := by
          rcases Nat.eq_zero_or_pos f2 with hz | hp
          · subst hz; rw [pow_one] at hb2; omega
          · exact hp
        have hd1 : n / 10 < 10 ^ f1 := by
          rw [Nat.div_lt_iff_lt_mul (by omega : 0 < 10)]
          rw [pow_succ] at hb1
          exact hb1
        have hd2 : n / 10 < 10 ^ f2 := by
          rw [Nat.div_lt_iff_lt_mul (by omega : 0 < 10)]
          rw [pow_succ] at hb2
          exact hb2
        rw [ih f2 (n / 10) hf1 hf2 hd1 hd2]

theorem lt_pow_succ_self (n : Nat) : n < 10 ^ (n + 1) := by
  have h1 : n < 10 ^ n := Nat.lt_pow_self (by omega) n
  have h2 : 10 ^ n ≤ 10 ^ (n + 1) := Nat.pow_le_pow_right (by omega) (by omega)
  omega

theorem natDigits_eq_core (f n : Nat) (hf : 0 < f) (h : n < 10 ^ f) :
    natDigits n = natDigitsCore f n :=
  natDigitsCore_congr (n + 1) f n (by omega) hf (lt_pow_succ_self n) h

theorem natDigits_ne_nil (n : Nat) : natDigits n ≠ [] :=
  natDigitsCore_ne_nil n n

theorem mem_natDigits_digit (n : Nat) : ∀ c ∈ natDigits n, '0' ≤ c ∧ c ≤ '9' :=
  natDigitsCore_mem_digit (n + 1) n (lt_pow_succ_self n)

theorem digit_ne_special (c : Char) (h1 : '0' ≤ c) (h2 : c ≤ '9') :
    c ≠ '_' ∧ c ≠ '-' ∧ c ≠ '+' := by
  refine ⟨?_, ?_, ?_⟩ <;> intro h <;> subst h
  · exact absurd h2 (by decide)
  · exact absurd h1 (by decide)
  · exact absurd h1 (by decide)

theorem parseStep_digit (a : Nat) (c : Char) (v : Nat) (h : digitVal c = some v) :
    parseStep (some a) c = some (a * 10 + v) := by
  simp [parseStep, h]

theorem foldl_parseStep_natDigitsCore :
    ∀ f n, n < 10 ^ f → ∀ a : Nat,
      (natDigitsCore f n).foldl parseStep (some a)
        = some (a * 10 ^ (natDigitsCore f n).length + n) := by
  intro f
  induction f with
  | zero =>
    intro n h a
    have hn : n = 0 := by
      rw [pow_zero] at h
      omega
    subst hn
    simp [natDigitsCore]
  | succ f ih =>
    intro n h a
    rw [natDigitsCore]
    split
    · rename_i h10
      rw [List.foldl_cons, List.foldl_nil,
        parseStep_digit a _ n (digitVal_digitChar n h10)]
      simp
    · rename_i h10
      have hdiv : n / 10 < 10 ^ f := by
        rw [Nat.div_lt_iff_lt_mul (by omega : 0 < 10)]
        rw [pow_succ] at h
        exact h
      rw [List.foldl_append, ih (n / 10) hdiv a,
        List.foldl_cons, List.foldl_nil,
        parseStep_digit _ _ (n % 10) (digitVal_digitChar (n % 10) (Nat.mod_lt _ (by omega)))]
      congr 1
      rw [List.length_append, List.length_cons, List.length_nil, pow_succ]
      have hmod : n / 10 * 10 + n % 10 = n := by omega
      calc (a * 10 ^ (natDigitsCore f (n / 10)).length + n / 10) * 10 + n % 10
          = a * (10 ^ (natDigitsCore f (n / 10)).length * 10) + (n / 10 * 10 + n % 10) := by
            ring
        _ = a * (10 ^ (natDigitsCore f (n / 10)).length * 10) + n := by rw [hmod]

theorem foldl_parseStep_natDigits (n : Nat) (a : Nat) :
    (natDigits n).foldl parseStep (some a)
      = some (a * 10 ^ (natDigits n).length + n) :=
  foldl_parseStep_natDigitsCore (n + 1) n (lt_pow_succ_self n) a

theorem parseDigits_natDigits (n : Nat) : parseDigits (natDigits n) = some n := by
  unfold parseDigits
  rw [if_neg (natDigits_ne_nil n), foldl_parseStep_natDigits n 0]
  simp

theorem foldl_parseStep_zeros (k : Nat) :
    (List.replicate k '0').foldl parseStep (some 0) = some 0 := by
  induction k with
  | zero => rfl
  | succ k ih =>
    rw [List.replicate_succ, List.foldl_cons]
    have h0 : parseStep (some 0) '0' = some 0 := by decide
    rw [h0]
    exact ih

theorem fmt04_ne_nil (n : Nat) : fmt04 n ≠ [] := by
  unfold fmt04
  simp [natDigits_ne_nil]

theorem parseDigits_fmt04 (n : Nat) : parseDigits (fmt04 n) = some n := by
  unfold parseDigits
  rw [if_neg (fmt04_ne_nil n)]
  unfold fmt04
  rw [List.foldl_append, foldl_parseStep_zeros, foldl_parseStep_natDigits n 0]
  simp

theorem fmt04_mem_digit (n : Nat) : ∀ c ∈ fmt04 n, '0' ≤ c ∧ c ≤ '9' := by
  intro c hc
  unfold fmt04 at hc
  rw [List.mem_append] at hc
  rcases hc with hc | hc
  · rw [List.eq_of_mem_replicate hc]
    decide
  · exact mem_natDigits_digit n c hc

theorem fmt04_no_underscore (n : Nat) : ∀ c ∈ fmt04 n, c ≠ '_' := by
  intro c hc
  have := fmt04_mem_digit n c hc
  exact (digit_ne_special c this.1 this.2).1

theorem pyInt_fmt04 (n : Nat) : pyInt (fmt04 n) = some (n : Int) := by
  cases hfm : fmt04 n with
  | nil => exact absurd hfm (fmt04_ne_nil n)
  | cons c rest =>
    have hd : '0' ≤ c ∧ c ≤ '9' := fmt04_mem_digit n c (by rw [hfm]; simp)
    have hne := digit_ne_special c hd.1 hd.2
    rw [pyInt, if_neg hne.2.1, if_neg hne.2.2, ← hfm, parseDigits_fmt04]
    rfl

theorem fmt04_length (n : Nat) (h : n ≤ 9999) : (fmt04 n).length = 4 := by
  have hlt : n < 10 ^ 4 := by norm_num; omega
  have h4 : (natDigits n).length ≤ 4 := by
    rw [natDigits_eq_core 4 n (by omega) hlt]
    exact natDigitsCore_length_le 4 n hlt
  unfold fmt04
  rw [List.length_append, List.length_replicate]
  omega

theorem last4_append (a b : List Char) (hb : b.length = 4) : last4 (a ++ b) = b := by
  unfold last4
  rw [List.length_append, hb]
  have h4 : a.length + 4 - 4 = a.length := by omega
  rw [h4]
  exact List.drop_left a b

theorem take4_append (a b : List Char) (ha : a.length = 4) : take4 (a ++ b) = a := by
  unfold take4
  rw [← ha]
  exact List.take_left a b

/-! ## Helper lemmas: filenames -/

theorem fmtInt04_natCast (x : Nat) : fmtInt04 (x : Int) = fmt04 x := by
  unfold fmtInt04
  rw [if_neg (not_lt.mpr (Int.natCast_nonneg x))]
  simp

theorem pagePart_no_underscore (n : Nat) : ∀ c ∈ pageStr ++ fmt04 n, c ≠ '_' := by
  intro c hc
  rw [List.mem_append] at hc
  rcases hc with hc | hc
  · simp only [pageStr, List.mem_cons, List.not_mem_nil, or_false] at hc
    rcases hc with rfl | rfl | rfl | rfl <;> decide
  · exact fmt04_no_underscore n c hc

theorem refPart_no_underscore (x : Nat) (ext : List Char)
    (hext : ∀ c ∈ ext, c ≠ '_') :
    ∀ c ∈ fmt04 x ++ '.' :: ext, c ≠ '_' := by
  intro c hc
  rw [List.mem_append, List.mem_cons] at hc
  rcases hc with hc | hc | hc
  · exact fmt04_no_underscore x c hc
  · subst hc; decide
  · exact hext c hc

theorem renderedName_no_underscore (n : Nat) : ∀ c ∈ renderedName n, c ≠ '_' := by
  intro c hc
  unfold renderedName at hc
  rw [List.mem_append, List.mem_append, List.mem_cons] at hc
  rcases hc with (hc | hc) | hc | hc
  · simp only [pageStr, List.mem_cons, List.not_mem_nil, or_false] at hc
    rcases hc with rfl | rfl | rfl | rfl <;> decide
  · exact fmt04_no_underscore n c hc
  · subst hc; decide
  · simp only [pngStr, List.mem_cons, List.not_mem_nil, or_false] at hc
    rcases hc with rfl | rfl | rfl <;> decide

theorem delim_not_in_renderedName (n : Nat) :
    listContainsSub XREF_DELIMITER (renderedName n) = false :=
  listContainsSub_of_no_underscore _ (renderedName_no_underscore n)

theorem extractName_shape (n x : Nat) (ext : List Char) :
    extractName n (x : Int) ext
      = (pageStr ++ fmt04 n) ++ (XREF_DELIMITER ++ (fmt04 x ++ '.' :: ext)) := by
  unfold extractName
  rw [fmtInt04_natCast]
  simp [List.append_assoc]

theorem parse_extractName (n x : Nat) (hn : n ≤ 9999) (hx : x ≤ 9999)
    (ext : List Char) (hext : ∀ c ∈ ext, c ≠ '_') :
    parse_file_request (extractName n (x : Int) ext)
      = FileRequest.xrefReq ((n : Int) - 1) (x : Int) := by
  rw [extractName_shape]
  unfold parse_file_request
  rw [if_pos (listContainsSub_delim_append _ _)]
  rw [splitOnDelim_pair _ _ (pagePart_no_underscore n) (refPart_no_underscore x ext hext)]
  have h1 : pyInt (last4 (pageStr ++ fmt04 n)) = some (n : Int) := by
    rw [last4_append _ _ (fmt04_length n hn), pyInt_fmt04]
  have h2 : pyInt (take4 (fmt04 x ++ '.' :: ext)) = some (x : Int) := by
    rw [take4_append _ _ (fmt04_length x hx), pyInt_fmt04]
  show (match pyInt (last4 (pageStr ++ fmt04 n)),
      pyInt (take4 (fmt04 x ++ '.' :: ext)) with
    | some p, some x => FileRequest.xrefReq (p - 1) x
    | _, _ => FileRequest.badName) = _
  rw [h1, h2]

/-! ## Claim theorems: classification and extraction paths -/

theorem abs_sub_cast_rat (a b : ℤ) : |(a : ℚ) - (b : ℚ)| = ((|a - b| : ℤ) : ℚ) := by
  push_cast
  rfl

theorem area_test_equiv (d pa : ℤ) :
    (((d : ℤ) : ℚ) < 0.05 * (pa : ℚ)) ↔ (20 * d < pa) := by
  rw [show (0.05 : ℚ) = 1 / 20 by norm_num]
  rw [mul_comm, mul_one_div, lt_div_iff₀ (by norm_num : (0 : ℚ) < 20)]
  rw [show ((d : ℚ) * 20) = ((d * 20 : ℤ) : ℚ) by push_cast; ring]
  rw [Int.cast_lt]
  omega

/-- C3: for every page examined while the document-wide complex flag is
unset, the page is classified MustRender (and the complex flag is set)
iff its embedded-image count is not exactly 1 or its text content is
non-empty; otherwise it is MustRender if the placed-image count is not
exactly 1, ExtractableImage if the absolute difference of the page
rectangle area and the single image rectangle area is below 0.05 times
the page area, and MustRender otherwise.  The worker agrees with the
classification function transcribed from the claim. -/
theorem C3_classification_matches_spec (e : Option (List Char)) (p : PageData) :
    _extract_as_image ⟨e, false⟩ p
      = ((classification_spec p == Classification.extractableImage),
         ⟨e, complex_flag_spec p⟩) := by
  have harea :
      (|(p.pageArea : ℚ) - (p.imageInfoAreas.headI : ℚ)| < 0.05 * (p.pageArea : ℚ))
        ↔ (20 * |p.pageArea - p.imageInfoAreas.headI| < p.pageArea) := by
    rw [abs_sub_cast_rat]
    exact area_test_equiv _ _
  have hbeq1 : (Classification.mustRender == Classification.extractableImage) = false := rfl
  have hbeq2 : (Classification.extractableImage == Classification.extractableImage) = true := rfl
  unfold _extract_as_image _must_render_page _can_extract_image
    classification_spec complex_flag_spec
  by_cases h1 : p.images.length ≠ 1 ∨ 0 < p.textLen
  · simp [h1, hbeq1]
  · by_cases h2 : p.imageInfoAreas.length ≠ 1
    · simp [h1, h2, hbeq1]
    · by_cases h3 : 20 * |p.pageArea - p.imageInfoAreas.headI| < p.pageArea
      · simp [h1, h2, h3, harea, hbeq2]
      · simp [h1, h2, h3, harea, hbeq1]

/-- C5: when the embedded-object lookup returns no image for the xref,
`extract_xref` is a silent no-op: no exception (the result is `some`),
no directory made, no file written. -/
theorem C5_extraction_miss_noop (d : Doc) (auto_rotate : Bool) (page xref : Int)
    (path : List Char) (h : d.extract_image xref = none) :
    extract_xref d auto_rotate page xref path = some noEffect := by
  unfold extract_xref
  rw [h]

theorem C5_extraction_miss_noop_witness :
    extract_xref ⟨[], []⟩ false 0 5 ['p'] = some noEffect :=
  C5_extraction_miss_noop ⟨[], []⟩ false 0 5 ['p'] rfl

/-- C6: with rotation compensation enabled, extraction of a page rotated
90, 180 or 270 degrees writes the raw bytes decoded, counter-rotated
(90 to rotate-270, 180 to rotate-180, 270 to rotate-90) and re-encoded;
with rotation 0 or the preference off, the raw bytes are written
verbatim. -/
theorem C6_rotation_compensation (d : Doc) (auto_rotate : Bool) (page xref : Int)
    (path : List Char) (img : ImageObj) (p : PageData)
    (himg : d.extract_image xref = some img) (hp : d.getPage page = some p) :
    (auto_rotate = true → p.rotation = 90 →
      extract_xref d auto_rotate page xref path = some ⟨[dirname path],
        some (path, FileContent.transposedOf Transpose.rotate270 (img.image.getD []))⟩) ∧
    (auto_rotate = true → p.rotation = 180 →
      extract_xref d auto_rotate page xref path = some ⟨[dirname path],
        some (path, FileContent.transposedOf Transpose.rotate180 (img.image.getD []))⟩) ∧
    (auto_rotate = true → p.rotation = 270 →
      extract_xref d auto_rotate page xref path = some ⟨[dirname path],
        some (path, FileContent.transposedOf Transpose.rotate90 (img.image.getD []))⟩) ∧
    (p.rotation = 0 →
      extract_xref d auto_rotate page xref path = some ⟨[dirname path],
        some (path, FileContent.raw (img.image.getD []))⟩) ∧
    (auto_rotate = false →
      extract_xref d auto_rotate page xref path = some ⟨[dirname path],
        some (path, FileContent.raw (img.image.getD []))⟩) := by
  unfold extract_xref
  rw [himg, hp]
  refine ⟨?_, ?_, ?_, ?_, ?_⟩
  · intro ha hr
    simp [ha, hr]
  · intro ha hr
    simp [ha, hr]
  · intro ha hr
    simp [ha, hr]
  · intro hr
    simp [hr]
  · intro ha
    simp [ha]

theorem C6_rotation_compensation_witness :
    extract_xref ⟨[⟨[], 0, [], 0, 90, ProbeOutcome.err⟩], [(5, ⟨some [1, 2]⟩)]⟩
        true 0 5 ['a', '/', 'b']
      = some ⟨[dirname ['a', '/', 'b']],
          some (['a', '/', 'b'], FileContent.transposedOf Transpose.rotate270 [1, 2])⟩ :=
  (C6_rotation_compensation ⟨[⟨[], 0, [], 0, 90, ProbeOutcome.err⟩], [(5, ⟨some [1, 2]⟩)]⟩
    true 0 5 ['a', '/', 'b'] ⟨some [1, 2]⟩ ⟨[], 0, [], 0, 90, ProbeOutcome.err⟩
    rfl rfl).1 rfl rfl

/-- C9: the session facade extract reports True whenever the single
extraction attempt does not raise, even when the extraction was a miss
and wrote nothing: the boolean reports the stream acknowledgment, not a
produced file. -/
theorem C9_extract_true_even_on_miss (d : Doc) (auto_rotate : Bool)
    (filename dest_dir : List Char) (eff : FsEffect)
    (h : extract_file d auto_rotate filename dest_dir = some eff) :
    FitzArchive_extract d auto_rotate filename dest_dir = some true := by
  have htr : extract_pages_trace d auto_rotate dest_dir [filename]
      = [PagesEvent.attempted filename eff, PagesEvent.yielded filename] := by
    rw [extract_pages_trace, h, extract_pages_trace]
  unfold FitzArchive_extract
  rw [htr]
  rfl

theorem C9_extract_true_even_on_miss_witness :
    FitzArchive_extract ⟨[], []⟩ false
        ['p', 'a', 'g', 'e', '0', '0', '0', '1', '_', 'm', 'c', 'm', 'x', 'r', 'e',
         'f', '0', '0', '0', '5', '.', 'x'] ['d'] = some true ∧
    extract_file ⟨[], []⟩ false
        ['p', 'a', 'g', 'e', '0', '0', '0', '1', '_', 'm', 'c', 'm', 'x', 'r', 'e',
         'f', '0', '0', '0', '5', '.', 'x'] ['d'] = some noEffect :=
  ⟨C9_extract_true_even_on_miss ⟨[], []⟩ false _ ['d'] noEffect (by decide), by decide⟩

/-- C10: a filename that neither contains the xref delimiter nor starts
with the page prefix makes `extract_file` a silent no-op: no extraction,
no render, no write, no exception. -/
theorem C10_unrecognized_name_noop (d : Doc) (auto_rotate : Bool)
    (filename dest : List Char)
    (h1 : listContainsSub XREF_DELIMITER filename = false)
    (h2 : listPrefixOf pageStr filename = false) :
    extract_file d auto_rotate filename dest = some noEffect := by
  unfold extract_file parse_file_request
  rw [h1, h2]
  simp

theorem C10_unrecognized_name_noop_witness :
    extract_file ⟨[], []⟩ false ['f', 'o', 'o', '.', 'p', 'n', 'g'] ['d']
      = some noEffect :=
  C10_unrecognized_name_noop ⟨[], []⟩ false _ ['d'] (by decide) (by decide)

/-! ## Helper lemmas: the listing loop -/

theorem iter_contents_from_length (ps : List PageData) :
    ∀ (w : Worker) (pg : Nat), (iter_contents_from w pg ps).length = ps.length := by
  induction ps with
  | nil => intro w pg; rfl
  | cons p rest ih =>
    intro w pg
    rw [iter_contents_from]
    by_cases hr : (_extract_as_image w p).1
    · simp [hr, ih]
    · simp [hr, ih]

theorem iter_contents_from_cons (w : Worker) (pg : Nat) (p : PageData)
    (rest : List PageData) :
    ∃ name w2, iter_contents_from w pg (p :: rest)
      = name :: iter_contents_from w2 (pg + 1) rest := by
  rw [iter_contents_from]
  by_cases hr : (_extract_as_image w p).1
  · refine ⟨extractName (pg + 1) (_get_image_xref p)
        (_image_extension (_extract_as_image w p).2 p).1,
      (_image_extension (_extract_as_image w p).2 p).2, ?_⟩
    simp [hr]
  · exact ⟨renderedName (pg + 1), (_extract_as_image w p).2, by simp [hr]⟩

theorem extract_as_image_of_complex (w : Worker) (p : PageData)
    (h : w._complex_doc = true) : _extract_as_image w p = (false, w) := by
  unfold _extract_as_image
  rw [if_pos h]

theorem iter_contents_from_complex_get (ext0 : Option (List Char)) :
    ∀ (ps : List PageData) (pg i : Nat), i < ps.length →
      (iter_contents_from ⟨ext0, true⟩ pg ps)[i]? = some (renderedName (pg + i + 1)) := by
  intro ps
  induction ps with
  | nil => intro pg i h; simp at h
  | cons p rest ih =>
    intro pg i h
    have hstep : iter_contents_from ⟨ext0, true⟩ pg (p :: rest)
        = renderedName (pg + 1) :: iter_contents_from ⟨ext0, true⟩ (pg + 1) rest := by
      rw [iter_contents_from]
      rw [extract_as_image_of_complex ⟨ext0, true⟩ p rfl]
      simp
    rw [hstep]
    cases i with
    | zero => simp
    | succ j =>
      rw [List.getElem?_cons_succ]
      have hrec := ih (pg + 1) j (by simpa using h)
      rw [show pg + (j + 1) + 1 = pg + 1 + j + 1 from by omega]
      exact hrec

theorem extract_as_image_complex_after (w : Worker) (p : PageData)
    (h : p.images.length ≠ 1 ∨ 0 < p.textLen) :
    ((_extract_as_image w p).2)._complex_doc = true ∧ (_extract_as_image w p).1 = false := by
  unfold _extract_as_image _must_render_page
  by_cases hc : w._complex_doc
  · simp [hc]
  · simp [hc, h]

theorem extract_true_images_one (w : Worker) (p : PageData)
    (h : (_extract_as_image w p).1 = true) : p.images.length = 1 := by
  unfold _extract_as_image _must_render_page at h
  by_cases hc : w._complex_doc
  · simp [hc] at h
  · by_cases h1 : p.images.length ≠ 1 ∨ 0 < p.textLen
    · simp [hc, h1] at h
    · push_neg at h1
      exact h1.1

theorem must_render_page_extension (w : Worker) (p : PageData) :
    ((_must_render_page w p).2)._extension = w._extension := by
  unfold _must_render_page
  split <;> rfl

theorem extract_as_image_extension (w : Worker) (p : PageData) :
    ((_extract_as_image w p).2)._extension = w._extension := by
  unfold _extract_as_image
  by_cases hc : w._complex_doc
  · simp [hc]
  · simp only [if_neg hc]
    by_cases hr : (!(_must_render_page w p).1 && _can_extract_image p) = true
    · simp only [hr, if_true]
      exact must_render_page_extension w p
    · simp only [hr, if_false]
      exact must_render_page_extension w p

theorem image_extension_cached (w : Worker) (p : PageData) (e : List Char)
    (h : w._extension = some e) : _image_extension w p = (e, w) := by
  unfold _image_extension
  rw [h]

theorem image_extension_fresh (w : Worker) (p : PageData)
    (h : w._extension = none) :
    _image_extension w p
      = (_check_image_type p, { w with _extension := some (_check_image_type p) }) := by
  unfold _image_extension
  rw [h]

theorem iter_contents_from_after_test :
    ∀ (ps : List PageData) (w : Worker) (pg i j : Nat), i < j → (hj : j < ps.length) →
      (hi : i < ps.length) →
      ((ps.get ⟨i, hi⟩).images.length ≠ 1 ∨ 0 < (ps.get ⟨i, hi⟩).textLen) →
      (iter_contents_from w pg ps)[j]? = some (renderedName (pg + j + 1)) := by
  intro ps
  induction ps with
  | nil => intro w pg i j hij hj hi ht; simp at hj
  | cons p rest ih =>
    intro w pg i j hij hj hi ht
    cases i with
    | zero =>
      have hflag := extract_as_image_complex_after w p (by simpa using ht)
      have hstep : iter_contents_from w pg (p :: rest)
          = renderedName (pg + 1)
            :: iter_contents_from (_extract_as_image w p).2 (pg + 1) rest := by
        rw [iter_contents_from]
        simp [hflag.2]
      rw [hstep]
      cases j with
      | zero => omega
      | succ j2 =>
        rw [List.getElem?_cons_succ]
        have hw2 : (_extract_as_image w p).2
            = ⟨(_extract_as_image w p).2._extension, true⟩ := by
          rw [← hflag.1]
        rw [hw2]
        have hrec := iter_contents_from_complex_get ((_extract_as_image w p).2._extension)
          rest (pg + 1) j2 (by simpa using hj)
        rw [show pg + (j2 + 1) + 1 = pg + 1 + j2 + 1 from by omega]
        exact hrec
    | succ i2 =>
      cases j with
      | zero => omega
      | succ j2 =>
        obtain ⟨name, w2, hstep⟩ := iter_contents_from_cons w pg p rest
        rw [hstep, List.getElem?_cons_succ]
        have hrec := ih w2 (pg + 1) i2 j2 (by omega) (by simpa using hj)
          (by simpa using hi) ht
        rw [show pg + (j2 + 1) + 1 = pg + 1 + j2 + 1 from by omega]
        exact hrec

/-- C2 (amended): once a page fires the must-render test (embedded-image
count not 1, or non-empty text), the document-wide complex flag is set
and every later page of the listing is classified MustRender.  A
MustRender classification coming only from the full-page-image geometry
test does not set the flag (see the counterexample). -/
theorem C2_must_render_test_short_circuits (d : Doc) (i j : Nat)
    (hij : i < j) (hj : j < d.pages.length)
    (ht : (d.pages.get ⟨i, lt_trans hij hj⟩).images.length ≠ 1
        ∨ 0 < (d.pages.get ⟨i, lt_trans hij hj⟩).textLen) :
    (iter_contents d)[j]? = some (renderedName (j + 1)) := by
  have h := iter_contents_from_after_test d.pages Worker.init 0 i j hij hj
    (lt_trans hij hj) ht
  simpa using h

theorem C2_must_render_test_short_circuits_witness :
    (iter_contents ⟨[⟨[5, 6], 0, [100], 100, 0, ProbeOutcome.err⟩,
        ⟨[7], 0, [100], 100, 0, ProbeOutcome.err⟩], []⟩)[1]?
      = some (renderedName 2) :=
  C2_must_render_test_short_circuits
    ⟨[⟨[5, 6], 0, [100], 100, 0, ProbeOutcome.err⟩,
      ⟨[7], 0, [100], 100, 0, ProbeOutcome.err⟩], []⟩
    0 1 (by omega) (by decide) (by decide)

/-- C2 counterexample: page 1 has a single embedded image and no text
but the image covers only 40 percent of the page, so the geometry test
classifies it MustRender without setting the complex flag, and page 2 is
still classified ExtractableImage — refuting the claim that a MustRender
classification from either test short-circuits all later pages. -/
theorem C2_geometry_does_not_short_circuit_cex :
    (iter_contents ⟨[⟨[5], 0, [40], 100, 0, ProbeOutcome.err⟩,
        ⟨[7], 0, [100], 100, 0, ProbeOutcome.profile (some ['j', 'p', 'g'])⟩], []⟩)[0]?
      = some (renderedName 1) ∧
    (iter_contents ⟨[⟨[5], 0, [40], 100, 0, ProbeOutcome.err⟩,
        ⟨[7], 0, [100], 100, 0, ProbeOutcome.profile (some ['j', 'p', 'g'])⟩], []⟩)[1]?
      ≠ some (renderedName 2) := by decide

theorem iter_contents_from_shape :
    ∀ (ps : List PageData) (w : Worker) (pg i : Nat), i < ps.length →
      (iter_contents_from w pg ps)[i]? = some (renderedName (pg + i + 1)) ∨
      ∃ x e, (iter_contents_from w pg ps)[i]? = some (extractName (pg + i + 1) x e) := by
  intro ps
  induction ps with
  | nil => intro w pg i h; simp at h
  | cons p rest ih =>
    intro w pg i h
    cases i with
    | zero =>
      rw [iter_contents_from]
      by_cases hr : (_extract_as_image w p).1
      · right
        exact ⟨_get_image_xref p, (_image_extension (_extract_as_image w p).2 p).1,
          by simp [hr]⟩
      · left
        simp [hr]
    | succ j =>
      obtain ⟨name, w2, hstep⟩ := iter_contents_from_cons w pg p rest
      rw [hstep, List.getElem?_cons_succ]
      have hrec := ih w2 (pg + 1) j (by simpa using h)
      rw [show pg + (j + 1) + 1 = pg + 1 + j + 1 from by omega]
      exact hrec

/-- C4: the listing yields exactly one filename per page, in ascending
one-based page order, and each filename is the rendered form
`page(N zero-padded to four digits).png` or the extracted form with the
delimiter, the xref zero-padded to four digits and an extension. -/
theorem C4_listing_shape (d : Doc) :
    (iter_contents d).length = d.page_count ∧
    ∀ i : Nat, i < d.page_count →
      ((iter_contents d)[i]? = some (renderedName (i + 1)) ∨
       ∃ x e, (iter_contents d)[i]? = some (extractName (i + 1) x e)) := by
  constructor
  · exact iter_contents_from_length d.pages Worker.init 0
  · intro i hi
    have h := iter_contents_from_shape d.pages Worker.init 0 i hi
    simpa using h

theorem C4_listing_shape_witness :
    ((iter_contents ⟨[⟨[7], 0, [100], 100, 0, ProbeOutcome.err⟩], []⟩)[0]?
        = some (renderedName 1) ∨
      ∃ x e, (iter_contents ⟨[⟨[7], 0, [100], 100, 0, ProbeOutcome.err⟩], []⟩)[0]?
        = some (extractName 1 x e)) :=
  (C4_listing_shape ⟨[⟨[7], 0, [100], 100, 0, ProbeOutcome.err⟩], []⟩).2 0 (by decide)

theorem image_extension_fst_inv (w : Worker) (p : PageData)
    (hw : ∀ e0, w._extension = some e0 → ∀ c ∈ e0, c ≠ '_')
    (hp : ∀ c ∈ _check_image_type p, c ≠ '_') :
    ∀ c ∈ (_image_extension w p).1, c ≠ '_' := by
  cases hwe : w._extension with
  | none => rw [image_extension_fresh w p hwe]; exact hp
  | some e => rw [image_extension_cached w p e hwe]; exact hw e hwe

theorem image_extension_snd_inv (w : Worker) (p : PageData)
    (hw : ∀ e0, w._extension = some e0 → ∀ c ∈ e0, c ≠ '_')
    (hp : ∀ c ∈ _check_image_type p, c ≠ '_') :
    ∀ e0, ((_image_extension w p).2)._extension = some e0 → ∀ c ∈ e0, c ≠ '_' := by
  cases hwe : w._extension with
  | none =>
    rw [image_extension_fresh w p hwe]
    intro e0 h
    simp only [Option.some_inj] at h
    rw [← h]
    exact hp
  | some e =>
    rw [image_extension_cached w p e hwe]
    exact hw

theorem iter_contents_from_uniform_some :
    ∀ (ps : List PageData) (w : Worker) (pg : Nat) (e : List Char),
      w._extension = some e →
      ∀ i name, (iter_contents_from w pg ps)[i]? = some name →
        listContainsSub XREF_DELIMITER name = true →
        ∃ x, name = extractName (pg + i + 1) x e := by
  intro ps
  induction ps with
  | nil => intro w pg e hw i name hname hdelim; simp [iter_contents_from] at hname
  | cons p rest ih =>
    intro w pg e hw i name hname hdelim
    have hw2 : ((_extract_as_image w p).2)._extension = some e := by
      rw [extract_as_image_extension]
      exact hw
    by_cases hr : (_extract_as_image w p).1
    · have hcache := image_extension_cached (_extract_as_image w p).2 p e hw2
      have hstep : iter_contents_from w pg (p :: rest)
          = extractName (pg + 1) (_get_image_xref p) e
            :: iter_contents_from (_extract_as_image w p).2 (pg + 1) rest := by
        rw [iter_contents_from]
        simp [hr, hcache]
      rw [hstep] at hname
      cases i with
      | zero =>
        rw [List.getElem?_cons_zero] at hname
        exact ⟨_get_image_xref p, (Option.some_inj.mp hname).symm⟩
      | succ j =>
        rw [List.getElem?_cons_succ] at hname
        obtain ⟨x, hx⟩ := ih (_extract_as_image w p).2 (pg + 1) e hw2 j name hname hdelim
        refine ⟨x, ?_⟩
        rw [hx, show pg + 1 + j + 1 = pg + (j + 1) + 1 from by omega]
    · have hstep : iter_contents_from w pg (p :: rest)
          = renderedName (pg + 1)
            :: iter_contents_from (_extract_as_image w p).2 (pg + 1) rest := by
        rw [iter_contents_from]
        simp [hr]
      rw [hstep] at hname
      cases i with
      | zero =>
        rw [List.getElem?_cons_zero] at hname
        have hn : renderedName (pg + 1) = name := Option.some_inj.mp hname
        rw [← hn, delim_not_in_renderedName] at hdelim
        exact absurd hdelim (by simp)
      | succ j =>
        rw [List.getElem?_cons_succ] at hname
        obtain ⟨x, hx⟩ := ih (_extract_as_image w p).2 (pg + 1) e hw2 j name hname hdelim
        refine ⟨x, ?_⟩
        rw [hx, show pg + 1 + j + 1 = pg + (j + 1) + 1 from by omega]

theorem iter_contents_from_uniform_none :
    ∀ (ps : List PageData) (w : Worker) (pg : Nat), w._extension = none →
      ∃ e, ∀ i name, (iter_contents_from w pg ps)[i]? = some name →
        listContainsSub XREF_DELIMITER name = true →
        ∃ x, name = extractName (pg + i + 1) x e := by
  intro ps
  induction ps with
  | nil =>
    intro w pg hw
    exact ⟨pngStr, by intro i name hname _; simp [iter_contents_from] at hname⟩
  | cons p rest ih =>
    intro w pg hw
    have hw2 : ((_extract_as_image w p).2)._extension = none := by
      rw [extract_as_image_extension]
      exact hw
    by_cases hr : (_extract_as_image w p).1
    · refine ⟨_check_image_type p, ?_⟩
      have hfresh := image_extension_fresh (_extract_as_image w p).2 p hw2
      have hstep : iter_contents_from w pg (p :: rest)
          = extractName (pg + 1) (_get_image_xref p) (_check_image_type p)
            :: iter_contents_from
                { (_extract_as_image w p).2 with _extension := some (_check_image_type p) }
                (pg + 1) rest := by
        rw [iter_contents_from]
        simp [hr, hfresh]
      intro i name hname hdelim
      rw [hstep] at hname
      cases i with
      | zero =>
        rw [List.getElem?_cons_zero] at hname
        exact ⟨_get_image_xref p, (Option.some_inj.mp hname).symm⟩
      | succ j =>
        rw [List.getElem?_cons_succ] at hname
        obtain ⟨x, hx⟩ := iter_contents_from_uniform_some rest
          { (_extract_as_image w p).2 with _extension := some (_check_image_type p) }
          (pg + 1) (_check_image_type p) rfl j name hname hdelim
        refine ⟨x, ?_⟩
        rw [hx, show pg + 1 + j + 1 = pg + (j + 1) + 1 from by omega]
    · obtain ⟨e, he⟩ := ih (_extract_as_image w p).2 (pg + 1) hw2
      refine ⟨e, ?_⟩
      have hstep : iter_contents_from w pg (p :: rest)
          = renderedName (pg + 1)
            :: iter_contents_from (_extract_as_image w p).2 (pg + 1) rest := by
        rw [iter_contents_from]
        simp [hr]
      intro i name hname hdelim
      rw [hstep] at hname
      cases i with
      | zero =>
        rw [List.getElem?_cons_zero] at hname
        have hn : renderedName (pg + 1) = name := Option.some_inj.mp hname
        rw [← hn, delim_not_in_renderedName] at hdelim
        exact absurd hdelim (by simp)
      | succ j =>
        rw [List.getElem?_cons_succ] at hname
        obtain ⟨x, hx⟩ := he j name hname hdelim
        refine ⟨x, ?_⟩
        rw [hx, show pg + 1 + j + 1 = pg + (j + 1) + 1 from by omega]

/-- C7: the image-extension probe never propagates an exception and
falls back to `png` when it fails or finds no profile; once cached it is
never re-run; and every extracted filename of a document uses one single
extension. -/
theorem C7_extension_probe :
    (∀ p : PageData, p.probe = ProbeOutcome.err ∨ p.probe = ProbeOutcome.noProfile →
      _check_image_type p = pngStr) ∧
    (∀ (w : Worker) (p : PageData) (e : List Char),
      w._extension = some e → _image_extension w p = (e, w)) ∧
    (∀ d : Doc, ∃ e : List Char, ∀ i : Nat, ∀ name : List Char,
      (iter_contents d)[i]? = some name →
      listContainsSub XREF_DELIMITER name = true →
      ∃ x : Int, name = extractName (i + 1) x e) := by
  refine ⟨?_, ?_, ?_⟩
  · intro p h
    unfold _check_image_type
    rcases h with h | h <;> rw [h]
  · exact image_extension_cached
  · intro d
    obtain ⟨e, he⟩ := iter_contents_from_uniform_none d.pages Worker.init 0 rfl
    refine ⟨e, ?_⟩
    intro i name hname hdelim
    have hname2 : (iter_contents_from Worker.init 0 d.pages)[i]? = some name := hname
    obtain ⟨x, hx⟩ := he i name hname2 hdelim
    refine ⟨x, ?_⟩
    rw [hx, show 0 + i + 1 = i + 1 from by omega]

theorem C7_extension_probe_witness :
    _check_image_type ⟨[], 0, [], 0, 0, ProbeOutcome.err⟩ = pngStr ∧
    _image_extension ⟨some ['j', 'p', 'g'], false⟩ ⟨[], 0, [], 0, 0, ProbeOutcome.err⟩
      = (['j', 'p', 'g'], ⟨some ['j', 'p', 'g'], false⟩) :=
  ⟨C7_extension_probe.1 ⟨[], 0, [], 0, 0, ProbeOutcome.err⟩ (Or.inl rfl),
   C7_extension_probe.2.1 ⟨some ['j', 'p', 'g'], false⟩
     ⟨[], 0, [], 0, 0, ProbeOutcome.err⟩ ['j', 'p', 'g'] rfl⟩

theorem iter_contents_from_extract_elem :
    ∀ (ps : List PageData) (w : Worker) (pg : Nat),
      (∀ e0, w._extension = some e0 → ∀ c ∈ e0, c ≠ '_') →
      (∀ p ∈ ps, ∀ c ∈ _check_image_type p, c ≠ '_') →
      ∀ i (hi : i < ps.length) (name : List Char),
        (iter_contents_from w pg ps)[i]? = some name →
        listContainsSub XREF_DELIMITER name = true →
        ∃ e, (∀ c ∈ e, c ≠ '_') ∧ (ps.get ⟨i, hi⟩).images.length = 1 ∧
          name = extractName (pg + i + 1) (_get_image_xref (ps.get ⟨i, hi⟩)) e := by
  intro ps
  induction ps with
  | nil => intro w pg _ _ i hi; simp at hi
  | cons p rest ih =>
    intro w pg hw hps i hi name hname hdelim
    have hw1 : ∀ e0, ((_extract_as_image w p).2)._extension = some e0 →
        ∀ c ∈ e0, c ≠ '_' := by
      intro e0 h
      rw [extract_as_image_extension] at h
      exact hw e0 h
    by_cases hr : (_extract_as_image w p).1
    · have hstep : iter_contents_from w pg (p :: rest)
          = extractName (pg + 1) (_get_image_xref p)
              (_image_extension (_extract_as_image w p).2 p).1
            :: iter_contents_from (_image_extension (_extract_as_image w p).2 p).2
                (pg + 1) rest := by
        rw [iter_contents_from]
        simp [hr]
      rw [hstep] at hname
      cases i with
      | zero =>
        rw [List.getElem?_cons_zero] at hname
        refine ⟨(_image_extension (_extract_as_image w p).2 p).1, ?_, ?_, ?_⟩
        · exact image_extension_fst_inv _ p hw1 (hps p (by simp))
        · exact extract_true_images_one w p hr
        · exact (Option.some_inj.mp hname).symm
      | succ j =>
        rw [List.getElem?_cons_succ] at hname
        have hw2 := image_extension_snd_inv (_extract_as_image w p).2 p hw1
          (hps p (by simp))
        obtain ⟨e, he1, he2, he3⟩ := ih ((_image_extension (_extract_as_image w p).2 p).2)
          (pg + 1) hw2 (fun q hq => hps q (by simp [hq])) j (by simpa using hi)
          name hname hdelim
        refine ⟨e, he1, he2, ?_⟩
        rw [he3, show pg + 1 + j + 1 = pg + (j + 1) + 1 from by omega]
        rfl
    · have hstep : iter_contents_from w pg (p :: rest)
          = renderedName (pg + 1)
            :: iter_contents_from (_extract_as_image w p).2 (pg + 1) rest := by
        rw [iter_contents_from]
        simp [hr]
      rw [hstep] at hname
      cases i with
      | zero =>
        rw [List.getElem?_cons_zero] at hname
        have hn : renderedName (pg + 1) = name := Option.some_inj.mp hname
        rw [← hn, delim_not_in_renderedName] at hdelim
        exact absurd hdelim (by simp)
      | succ j =>
        rw [List.getElem?_cons_succ] at hname
        obtain ⟨e, he1, he2, he3⟩ := ih ((_extract_as_image w p).2) (pg + 1) hw1
          (fun q hq => hps q (by simp [hq])) j (by simpa using hi) name hname hdelim
        refine ⟨e, he1, he2, ?_⟩
        rw [he3, show pg + 1 + j + 1 = pg + (j + 1) + 1 from by omega]
        rfl

/-- C1 (amended): for every page whose listing entry is the
extracted form, decoding the emitted filename exactly as `extract_file`
does recovers the zero-based page index and the xref encoded by
`iter_contents` — provided the one-based page number and the xref are at
most 9999 (four format digits, as the spec itself flags) and the probed
extension contains no underscore (true of every real image type). -/
theorem C1_roundtrip (d : Doc) (i : Nat) (hi : i < d.pages.length)
    (hn : i + 1 ≤ 9999)
    (hx : _get_image_xref (d.pages.get ⟨i, hi⟩) ≤ 9999)
    (hext : ∀ p ∈ d.pages, ∀ c ∈ _check_image_type p, c ≠ '_')
    (name : List Char)
    (hname : (iter_contents d)[i]? = some name)
    (hdelim : listContainsSub XREF_DELIMITER name = true) :
    parse_file_request name
      = FileRequest.xrefReq (i : Int) (_get_image_xref (d.pages.get ⟨i, hi⟩)) := by
  have hname2 : (iter_contents_from Worker.init 0 d.pages)[i]? = some name := hname
  obtain ⟨e, he, hone, hshape⟩ := iter_contents_from_extract_elem d.pages Worker.init 0
    (by intro e0 h; exact absurd h (by simp [Worker.init])) hext i hi name hname2 hdelim
  obtain ⟨x0, hx0⟩ : ∃ x0 : Nat, (d.pages.get ⟨i, hi⟩).images = [x0] := by
    cases him : (d.pages.get ⟨i, hi⟩).images with
    | nil => rw [him] at hone; simp at hone
    | cons a t =>
      rw [him] at hone
      simp at hone
      exact ⟨a, by rw [hone]⟩
  have hxr : _get_image_xref (d.pages.get ⟨i, hi⟩) = (x0 : Int) := by
    unfold _get_image_xref
    rw [hx0]
  rw [hxr] at hshape hx ⊢
  have hx0b : x0 ≤ 9999 := by exact_mod_cast hx
  rw [show (0 : Nat) + i + 1 = i + 1 from by omega] at hshape
  rw [hshape, parse_extractName (i + 1) x0 hn hx0b e he]
  congr 1
  push_cast
  ring

theorem C1_roundtrip_witness :
    parse_file_request (extractName 1 (7 : Int) ['j', 'p', 'g'])
      = FileRequest.xrefReq ((0 : Nat) : Int)
          (_get_image_xref
            ((⟨[⟨[7], 0, [100], 100, 0, ProbeOutcome.profile (some ['j', 'p', 'g'])⟩],
              []⟩ : Doc).pages.get ⟨0, by decide⟩)) :=
  C1_roundtrip
    ⟨[⟨[7], 0, [100], 100, 0, ProbeOutcome.profile (some ['j', 'p', 'g'])⟩], []⟩
    0 (by decide) (by decide) (by decide) (by decide)
    (extractName 1 (7 : Int) ['j', 'p', 'g']) (by decide) (by decide)

/-- C1 counterexample: a page whose single embedded image has xref 10000
is listed as `page0001_mcmxref10000.jpg`, but `extract_file` decodes the
xref from the first four characters after the delimiter and recovers
1000, not 10000 — the round-trip is lossy beyond four digits. -/
theorem C1_xref_overflow_cex :
    (iter_contents ⟨[⟨[10000], 0, [100], 100, 0,
        ProbeOutcome.profile (some ['j', 'p', 'g'])⟩], []⟩)[0]?
      = some (extractName 1 (10000 : Int) ['j', 'p', 'g']) ∧
    parse_file_request (extractName 1 (10000 : Int) ['j', 'p', 'g'])
      = FileRequest.xrefReq 0 1000 ∧
    ((1000 : Int) = 10000 → False) := by decide

/-- C8 (amended): when no extraction attempt raises, the extraction
stream yields back exactly the input filenames, in input order, each
yielded immediately after its extraction was attempted (the trace at
even positions holds the attempts, at odd positions the echoes).  A
raised extraction aborts the stream (see the counterexample), which is
why the no-raise hypothesis is needed; filenames produced by
`iter_contents` on the same document never raise. -/
theorem C8_stream_echoes_input (d : Doc) (auto_rotate : Bool) (save_path : List Char)
    (entries : List (List Char))
    (h : ∀ e ∈ entries, extract_file d auto_rotate e save_path ≠ none) :
    yieldsOf (extract_pages_trace d auto_rotate save_path entries) = entries ∧
    ∀ i (hi : i < entries.length),
      (∃ eff, (extract_pages_trace d auto_rotate save_path entries)[2 * i]?
          = some (PagesEvent.attempted (entries.get ⟨i, hi⟩) eff)) ∧
      (extract_pages_trace d auto_rotate save_path entries)[2 * i + 1]?
          = some (PagesEvent.yielded (entries.get ⟨i, hi⟩)) := by
  induction entries with
  | nil => exact ⟨rfl, fun i hi => absurd hi (by simp)⟩
  | cons e rest ih =>
    obtain ⟨eff, heff⟩ : ∃ eff, extract_file d auto_rotate e save_path = some eff := by
      cases hx : extract_file d auto_rotate e save_path with
      | none => exact absurd hx (h e (by simp))
      | some eff => exact ⟨eff, rfl⟩
    have htr : extract_pages_trace d auto_rotate save_path (e :: rest)
        = PagesEvent.attempted e eff :: PagesEvent.yielded e ::
            extract_pages_trace d auto_rotate save_path rest := by
      rw [extract_pages_trace, heff]
    have ihh := ih (fun x hx => h x (by simp [hx]))
    constructor
    · rw [htr]
      unfold yieldsOf
      rw [List.filterMap_cons, List.filterMap_cons]
      have h1 : yieldsOf (extract_pages_trace d auto_rotate save_path rest) = rest := ihh.1
      unfold yieldsOf at h1
      simpa using h1
    · intro i hi
      cases i with
      | zero =>
        refine ⟨⟨eff, ?_⟩, ?_⟩ <;> rw [htr] <;> simp
      | succ j =>
        have hj : j < rest.length := by simpa using hi
        obtain ⟨⟨eff2, ha⟩, hy⟩ := ihh.2 j hj
        rw [htr]
        constructor
        · refine ⟨eff2, ?_⟩
          rw [show 2 * (j + 1) = 2 * j + 1 + 1 from by ring]
          rw [List.getElem?_cons_succ, List.getElem?_cons_succ]
          exact ha
        · rw [show 2 * (j + 1) + 1 = 2 * j + 1 + 1 + 1 from by ring]
          rw [List.getElem?_cons_succ, List.getElem?_cons_succ]
          exact hy

theorem C8_stream_echoes_input_witness :
    yieldsOf (extract_pages_trace ⟨[⟨[], 0, [], 0, 0, ProbeOutcome.err⟩], []⟩ false ['d']
        [['p', 'a', 'g', 'e', '0', '0', '0', '1', '.', 'p', 'n', 'g']])
      = [['p', 'a', 'g', 'e', '0', '0', '0', '1', '.', 'p', 'n', 'g']] :=
  (C8_stream_echoes_input ⟨[⟨[], 0, [], 0, 0, ProbeOutcome.err⟩], []⟩ false ['d']
    [['p', 'a', 'g', 'e', '0', '0', '0', '1', '.', 'p', 'n', 'g']] (by decide)).1

/-- C8 counterexample: a filename that contains the delimiter but whose
page field is not numeric makes `extract_file` raise (`int` fails), the
generator dies, and the stream yields nothing instead of echoing the
input — so the echo property does not hold for every list of input
filenames. -/
theorem C8_raise_breaks_echo_cex :
    yieldsOf (extract_pages_trace ⟨[], []⟩ false ['d']
        [['p', 'a', 'g', 'e', '_', 'm', 'c', 'm', 'x', 'r', 'e', 'f',
          'z', 'z', 'z', 'z', '.', 'x']])
      ≠ [['p', 'a', 'g', 'e', '_', 'm', 'c', 'm', 'x', 'r', 'e', 'f',
          'z', 'z', 'z', 'z', '.', 'x']] := by decide

end NativePdf
